import Mathlib

/-!
Verification of the CryptoVolatility analyzer (`src/main.py`) against its
natural-language specification.

The development shallowly embeds the parts of the program the claims concern:

* the CSV loading / normalization pipeline `load_data_from_csv`
  (pandas `read_csv(parse_dates=['Date'], thousands=',')`, column
  title-casing, the `Close/Last` schema check, currency stripping,
  `set_index` / `sort_index`, `to_numeric(errors='coerce')`, `dropna`);
* the metrics engine `calculate_metrics` (pct_change returns, sample
  standard deviation with pandas NaN semantics, Sharpe guard, cumulative
  maximum and drawdown);
* the correlation path `plot_correlation` (pandas column-assignment index
  alignment and `DataFrame.corr()` Pearson semantics with pairwise-complete
  observations), together with the menu-level state updates for the
  InstrumentSet dictionary.

Floating point values are modelled as exact rationals; pandas `NaN` is
modelled with `Option` (`none` = NaN).  Irrational values (standard
deviations, annualization by `sqrt 365`, Pearson quotients) are represented
by their exact rational squares / numerator-denominator data, with the real
value expressed via `Real.sqrt` in theorem statements; zero-ness and
NaN-ness of the represented value coincide with those of the encoding.

Modelling notes (library behaviour of pandas that the embedding fixes):
* `read_csv` date parsing is all-or-nothing per column: if any value of the
  `Date` column fails to parse, the whole column is kept as text, and
  `sort_index` then sorts lexicographically.  Dates are modelled in ISO
  `YYYY-MM-DD` form (the format the claims exercise).
* numeric parsing accepts an optional sign, digits and one decimal point
  (the fragment of Python float syntax the claims exercise).
* a numeric price column parsed by `read_csv` (with `thousands=','`) and a
  textual column cleaned by the `str.replace` branch produce the same final
  values, so price cells are uniformly parsed after stripping `$` and `,`.
* duplicate column headers after title-casing and pandas header mangling
  are not modelled; tables are assumed rectangular, missing cells read `""`.
* `sort_index` order among duplicate timestamps is unspecified in pandas;
  the model fixes a deterministic insertion sort.
-/

/-- Value of a list of decimal digit characters. -/
def digitsToNat (cs : List Char) : ℕ :=
  cs.foldl (fun a c => a * 10 + (c.toNat - 48)) 0

/-- Parse an unsigned decimal numeral, optionally with a fractional part
(`"1234.50"`, `"7"`, `"3."`, `".5"`). -/
def parseNumAux (cs : List Char) : Option ℚ :=
  let intPart := cs.takeWhile Char.isDigit
  let rest := cs.dropWhile Char.isDigit
  match rest with
  | [] => if intPart.isEmpty then none else some (digitsToNat intPart : ℚ)
  | '.' :: frac =>
      if frac.all Char.isDigit && !(intPart.isEmpty && frac.isEmpty) then
        some ((digitsToNat intPart : ℚ) + (digitsToNat frac : ℚ) / (10 ^ frac.length))
      else none
  | _ => none

/-- Numeric parsing as performed by `pd.to_numeric(..., errors='coerce')` on a
cleaned price cell: optional sign, then a decimal numeral; anything else is
coerced to missing (`none`, pandas NaN). -/
def parseNum (s : String) : Option ℚ :=
  match s.data with
  | '-' :: rest => (parseNumAux rest).map (fun q => -q)
  | '+' :: rest => parseNumAux rest
  | cs => parseNumAux cs

/-- Split a character list on a separator character. -/
def splitOnChar (sep : Char) : List Char → List (List Char)
  | [] => [[]]
  | c :: cs =>
      let r := splitOnChar sep cs
      if c = sep then [] :: r else (c :: r.headD []) :: r.tail

/-- Date parsing as performed by `read_csv(parse_dates=['Date'])`, modelled on
ISO `YYYY-MM-DD` values; the resulting key `y*10000 + m*100 + d` preserves
chronological order. -/
def parseDate (s : String) : Option ℕ :=
  match splitOnChar '-' s.data with
  | [y, m, d] =>
      if y.length = 4 && m.length = 2 && d.length = 2 &&
          (y ++ m ++ d).all Char.isDigit then
        some (digitsToNat y * 10000 + digitsToNat m * 100 + digitsToNat d)
      else none
  | _ => none

/-- Leading/trailing whitespace removal (Python `str.strip()`). -/
def trimChars (cs : List Char) : List Char :=
  ((cs.dropWhile Char.isWhitespace).reverse.dropWhile Char.isWhitespace).reverse

/-- Python `str.title()`: the first alphabetic character of every run of
alphabetic characters is upper-cased, the rest lower-cased. -/
def pyTitleAux : Bool → List Char → List Char
  | _, [] => []
  | prevAlpha, c :: cs =>
      (if c.isAlpha then (if prevAlpha then c.toLower else c.toUpper) else c) ::
        pyTitleAux c.isAlpha cs

/-- Column-name normalization `c.strip().title()` from line 13 of the source. -/
def titleName (s : String) : String := ⟨pyTitleAux false (trimChars s.data)⟩

/-- Currency cleaning `str.replace('$','').str.replace(',','')`
(line 21 of the source): every `$` and `,` is removed. -/
def stripDollarComma (s : String) : String :=
  ⟨s.data.filter (fun c => !(c = '$' || c = ','))⟩

/-- Lexicographic comparison of character lists by code point (how pandas
sorts a text index). -/
def lexLe : List Char → List Char → Bool
  | [], _ => true
  | _ :: _, [] => false
  | a :: as, b :: bs =>
      if a.toNat < b.toNat then true
      else if b.toNat < a.toNat then false
      else lexLe as bs

/-- Index value of a loaded row: a parsed timestamp when the whole `Date`
column parsed, otherwise the raw date text (pandas keeps an unparseable
date column as text). -/
inductive DVal where
  | t (n : ℕ)
  | s (v : String)
  deriving DecidableEq, Repr

/-- Ascending comparison used by `sort_index`: chronological on timestamps,
lexicographic on raw text.  Mixed comparisons never occur (date parsing is
all-or-nothing per column); they are given a fixed arbitrary answer. -/
def DVal.ble : DVal → DVal → Bool
  | .t a, .t b => a ≤ b
  | .s a, .s b => lexLe a.data b.data
  | .t _, .s _ => true
  | .s _, .t _ => false

/-- The in-memory data frame the claims concern, projected to the columns the
program reads: the `Date` index, the `Price` column, and the derived
`Returns` column (absent until enrichment; inner `none`s are NaN entries). -/
structure Frame where
  idx : List DVal
  price : List ℚ
  returns : Option (List (Option ℚ))
  deriving DecidableEq, Repr

/-- pandas `DataFrame.empty` for a loaded frame: no rows. -/
def Frame.isEmpty (df : Frame) : Bool := df.idx.isEmpty

/-- A raw rectangular CSV table: header names and rows of cells. -/
structure RawTable where
  cols : List String
  rows : List (List String)
  deriving DecidableEq, Repr

/-- Structured view of the failures `load_data_from_csv` catches:
the `read_csv` failure when no `Date` column exists, the `ValueError`
raised on line 16 (carrying the available column names), and the spec's
`ParseError` for unparseable dates (used only by the spec-order model). -/
inductive LoadErr where
  | missingDate
  | schema (available : List String)
  | parse
  deriving DecidableEq, Repr

/-- Index of the first column with the given name. -/
def colIdx (name : String) (cols : List String) : ℕ :=
  cols.findIdx (fun c => c == name)

/-- Cells of the column at position `j`. -/
def columnAt (t : RawTable) (j : ℕ) : List String :=
  t.rows.map (fun r => r.getD j "")

/-- Insertion step of the ascending sort on (date, payload) rows. -/
def insertRow {β : Type} (x : DVal × β) : List (DVal × β) → List (DVal × β)
  | [] => [x]
  | y :: ys => if DVal.ble x.1 y.1 then x :: y :: ys else y :: insertRow x ys

/-- `sort_index` (ascending) on (date, payload) rows. -/
def sortRows {β : Type} : List (DVal × β) → List (DVal × β)
  | [] => []
  | x :: xs => insertRow x (sortRows xs)

/-- Price cells of a table, i.e. the column that the loader renames to
`Price`: the first column whose trimmed, title-cased name is `Close/Last`. -/
def priceColumn (t : RawTable) : List String :=
  columnAt t (colIdx "Close/Last" (t.cols.map titleName))

/-- The index column built by `read_csv(parse_dates=['Date'])`: the cells of
the column literally named `Date`, parsed all-or-nothing — if every cell
parses the column becomes timestamps, otherwise it is kept as raw text. -/
def datesOf (t : RawTable) : List DVal :=
  if (columnAt t (colIdx "Date" t.cols)).all (fun c => (parseDate c).isSome) then
    (columnAt t (colIdx "Date" t.cols)).map (fun c => DVal.t ((parseDate c).getD 0))
  else
    (columnAt t (colIdx "Date" t.cols)).map DVal.s

/-- The row pipeline of the loader after the schema checks, in the source's
order: strip `$`/`,` from the price cells, `set_index` + `sort_index`
(ascending by date), `to_numeric(errors='coerce')`, `dropna`. -/
def parsedRows (dates : List DVal) (cells : List String) : List (DVal × ℚ) :=
  (sortRows (dates.zip (cells.map stripDollarComma))).filterMap
    (fun p => (parseNum p.2).map (fun q => (p.1, q)))

/-- The frame assembled from the retained (date, price) rows. -/
def frameOf (rows : List (DVal × ℚ)) : Frame :=
  { idx := rows.map Prod.fst, price := rows.map Prod.snd, returns := none }

/-- The body of `load_data_from_csv` (lines 12-27 of the source), with the
raised exceptions made explicit:

1. `read_csv(..., parse_dates=['Date'], thousands=',')` requires a column
   literally named `Date` and parses it (all-or-nothing);
2. column names are trimmed and title-cased;
3. a `Close/Last` column is required, else a `ValueError` lists the
   (normalized) available columns;
4. it is renamed `Price` and `$`/`,` are stripped from its values;
5. `set_index('Date')` + `sort_index()` sort rows ascending by date;
6. `to_numeric(errors='coerce')` parses prices, coercing failures to NaN;
7. `dropna(subset=['Price'])` drops rows with missing price. -/
def innerLoad (t : RawTable) : Except LoadErr Frame :=
  if "Date" ∈ t.cols then
    if "Close/Last" ∈ t.cols.map titleName then
      .ok (frameOf (parsedRows (datesOf t) (priceColumn t)))
    else
      .error (.schema (t.cols.map titleName))
  else
    .error .missingDate

/-- `load_data_from_csv` as seen by callers: the `try`/`except` on lines
11 and 29-31 converts every internal failure into a printed diagnostic
and a `None` result. -/
def load_data_from_csv (t : RawTable) : Option Frame :=
  match innerLoad t with
  | .ok f => some f
  | .error _ => none

/-- Modelled from the spec (section 4.1, step 5): the date column recognized
after title-casing, required to parse completely. -/
def specDates (t : RawTable) : List DVal :=
  (columnAt t (colIdx "Date" (t.cols.map titleName))).map
    (fun c => DVal.t ((parseDate c).getD 0))

/-- Modelled from the spec (section 4.1): the row pipeline in the
specification's order — strip, parse prices to missing-on-failure, sort by
timestamp, drop missing. -/
def specRows (dates : List DVal) (cells : List String) : List (DVal × ℚ) :=
  (sortRows (dates.zip ((cells.map stripDollarComma).map parseNum))).filterMap
    (fun p => p.2.map (fun q => (p.1, q)))

/-- Modelled from the spec (section 4.1): the same normalization pipeline with
the steps performed in the order the specification lists them — (1) trim and
title-case column names, (2) require `Close/Last` (schema error listing
columns), (3) rename to `Price`, (4) strip currency symbols and thousands
separators, (5) parse the date column where any unparseable date fails the
whole load with a parse error, (6) parse prices coercing failures to
missing, (7) sort ascending by timestamp, (8) drop rows with missing price.
This definition exists only to be compared with `innerLoad`. -/
def loadSpecOrder (t : RawTable) : Except LoadErr Frame :=
  if "Close/Last" ∈ t.cols.map titleName then
    if "Date" ∈ t.cols.map titleName then
      if (columnAt t (colIdx "Date" (t.cols.map titleName))).all
          (fun c => (parseDate c).isSome) then
        .ok (frameOf (specRows (specDates t) (priceColumn t)))
      else
        .error .parse
    else
      .error .missingDate
  else
    .error (.schema (t.cols.map titleName))

/-! ## Metrics engine (`calculate_metrics`, lines 33-69) -/

/-- pandas `Series.pct_change()` on the `Price` column: the first entry is
NaN, then `price[i] / price[i-1] - 1`.  Prices are positive in the spec's
data model; a division by a zero price (a float infinity) is not modelled. -/
def pctChange (ps : List ℚ) : List (Option ℚ) :=
  match ps with
  | [] => []
  | p :: rest => none :: pctChangeAux p rest
where
  pctChangeAux : ℚ → List ℚ → List (Option ℚ)
  | _, [] => []
  | prev, p :: rest => some (p / prev - 1) :: pctChangeAux p rest

/-- The non-NaN entries of a column (pandas `skipna` semantics). -/
def validRets (xs : List (Option ℚ)) : List ℚ := xs.filterMap id

/-- Mean of a list of rationals (0 for the empty list; pandas returns NaN
there, but every use below is guarded so that the empty case is unreachable
or irrelevant). -/
def meanL (l : List ℚ) : ℚ := l.sum / l.length

/-- pandas `Series.std()` (sample standard deviation, `ddof=1`, `skipna`),
represented by its square: NaN (`none`) when fewer than 2 non-NaN values
exist, else the sample variance.  The standard deviation is the real square
root of this value. -/
def varOpt (l : List ℚ) : Option ℚ :=
  if l.length < 2 then none
  else some ((l.map (fun x => (x - meanL l) ^ 2)).sum / ((l.length : ℚ) - 1))

/-- pandas `Series.cummax()`: running maximum. -/
def cummax (ps : List ℚ) : List ℚ :=
  match ps with
  | [] => []
  | p :: rest => p :: cummaxAux p rest
where
  cummaxAux : ℚ → List ℚ → List ℚ
  | _, [] => []
  | m, p :: rest => max m p :: cummaxAux (max m p) rest

/-- Drawdown series `(df['Price'] / df['Price'].cummax()) - 1`
(lines 60-61 of the source). -/
def drawdowns (ps : List ℚ) : List ℚ :=
  List.zipWith (fun p m => p / m - 1) ps (cummax ps)

/-- The metrics record returned by `calculate_metrics`.  Encodings of the two
irrational fields (values involving square roots):
* `volatilitySq` is the square of `Volatility = std(returns) * sqrt(365)`,
  i.e. `variance * 365`; `none` encodes NaN — the float value is NaN exactly
  when the encoding is `none`, and `0.0` exactly when it is `some 0`;
* `sharpeSgnSq` is the signed square of the Sharpe ratio
  `(mean - rf/365) / std * sqrt(365)`, i.e. `d * |d| * 365 / variance` with
  `d = mean - rf/365` (or `0` when the divide-by-zero guard of line 55
  fires); the float value is `0.0` exactly when the encoding is `0`, and its
  sign equals the encoding's sign. -/
structure Metrics where
  totalReturn : ℚ
  volatilitySq : Option ℚ
  sharpeSgnSq : ℚ
  maxDrawdown : ℚ
  deriving DecidableEq, Repr

/-- `calculate_metrics(df, risk_free_rate)` (lines 33-69).  The Python
function mutates `df` by writing the `Returns` column and returns the
metrics dict; the model returns both.  The `try/except IndexError` around
`total_return` cannot fire on a non-empty frame and is modelled by the
direct quotient. -/
def calculate_metrics (rate : ℚ) (df : Frame) : Metrics × Frame :=
  if df.isEmpty then
    ({ totalReturn := 0, volatilitySq := some 0, sharpeSgnSq := 0, maxDrawdown := 0 }, df)
  else
    let rets := validRets (pctChange df.price)
    let df2 := { df with returns := some (pctChange df.price) }
    let tr := df.price.getLastD 0 / df.price.headD 0 - 1
    let vol : Option ℚ := (varOpt rets).map (fun v => v * 365)
    let sharpe : ℚ :=
      match varOpt rets with
      | none => 0
      | some v =>
          if v = 0 then 0
          else
            let d := meanL rets - rate / 365
            d * |d| * 365 / v
    let md : ℚ :=
      match drawdowns df.price with
      | [] => 0
      | d :: ds => ds.foldl min d
    ({ totalReturn := tr, volatilitySq := vol, sharpeSgnSq := sharpe, maxDrawdown := md }, df2)

/-- A frame with the given prices on consecutive synthetic dates (used to
state per-series metric properties). -/
def natFrame (ps : List ℚ) : Frame :=
  { idx := (List.range ps.length).map DVal.t, price := ps, returns := none }

/-! ## Menu-level state (`main_menu`, lines 115-179) -/

/-- Python dict insert/overwrite `coins[ticker] = df`: insertion order is
preserved, re-insertion overwrites in place. -/
def insertCoin : List (String × Frame) → String → Frame → List (String × Frame)
  | [], k, v => [(k, v)]
  | (k2, v2) :: rest, k, v =>
      if k2 = k then (k, v) :: rest else (k2, v2) :: insertCoin rest k v

/-- The load branch of the menu (lines 137-144): on a successful, non-empty
load the frame is enriched with its `Returns` column and stored under the
ticker; otherwise the dictionary is untouched. -/
def loadStep (coins : List (String × Frame)) (ticker : String) (t : RawTable) :
    List (String × Frame) :=
  match load_data_from_csv t with
  | some df =>
      if !df.isEmpty then
        insertCoin coins ticker { df with returns := some (pctChange df.price) }
      else coins
  | none => coins

/-- The report branch of the menu (lines 157-159): `calculate_metrics` runs on
every stored frame; the Python function mutates each frame in place (writing
`Returns`), so the dictionary afterwards holds the returned frames. -/
def reportStep (coins : List (String × Frame)) : List (String × Frame) :=
  coins.map (fun e => (e.1, (calculate_metrics (4 / 100) e.2).2))

/-! ## Correlation (`plot_correlation`, lines 95-113) -/

/-- The `Returns` value stored at date `d` of a frame (`none` when the date is
absent or the stored return is NaN). -/
def lookupRet (df : Frame) (d : DVal) : Option ℚ :=
  match (df.idx.zip (df.returns.getD [])).find? (fun p => p.1 = d) with
  | some p => p.2
  | none => none

/-- Columns added to `combined_returns` after the first one: assigning a
Series to an existing DataFrame aligns it to the frame's current index
(missing dates become NaN; dates outside the index are dropped). -/
def addCols (idx : List DVal) (acc : List (String × List (Option ℚ))) :
    List (String × Frame) → List DVal × List (String × List (Option ℚ))
  | [] => (idx, acc)
  | (n, df) :: rest =>
      if df.isEmpty then addCols idx acc rest
      else addCols idx (acc ++ [(n, idx.map (lookupRet df))]) rest

/-- The `combined_returns` frame built on lines 100-103: empty frames are
skipped; the first non-empty frame's assignment fixes the index (assigning a
Series to a completely empty DataFrame adopts the Series' index), and every
later column is aligned to it. -/
def buildCombined : List (String × Frame) → List DVal × List (String × List (Option ℚ))
  | [] => ([], [])
  | (n, df) :: rest =>
      if df.isEmpty then buildCombined rest
      else addCols df.idx [(n, df.returns.getD [])] rest

/-- The rows where both columns have a non-NaN return (pandas pairwise
complete observations). -/
def overlap (x y : List (Option ℚ)) : List (ℚ × ℚ) :=
  (x.zip y).filterMap
    (fun p => match p.1, p.2 with
      | some a, some b => some (a, b)
      | _, _ => none)

/-- Centered second-moment sums over paired observations:
`(Σ dx*dy, Σ dx^2, Σ dy^2)` with `dx = x - mean x`, `dy = y - mean y`. -/
def centeredSums (ps : List (ℚ × ℚ)) : ℚ × ℚ × ℚ :=
  let mx := meanL (ps.map Prod.fst)
  let my := meanL (ps.map Prod.snd)
  ((ps.map (fun p => (p.1 - mx) * (p.2 - my))).sum,
   (ps.map (fun p => (p.1 - mx) ^ 2)).sum,
   (ps.map (fun p => (p.2 - my) ^ 2)).sum)

/-- One entry of `DataFrame.corr()` (Pearson, pairwise complete observations,
`min_periods=1`): NaN (`none`) when no observation overlaps or when the
variance product is zero (pandas returns NaN instead of dividing by zero);
otherwise `some (n, d)` representing the float value `n / sqrt d` with
`n = Σ dx*dy` and `d = (Σ dx^2) * (Σ dy^2)`. -/
def corrEntry (x y : List (Option ℚ)) : Option (ℚ × ℚ) :=
  if (overlap x y).isEmpty then none
  else if (centeredSums (overlap x y)).2.1 * (centeredSums (overlap x y)).2.2 = 0 then none
  else some ((centeredSums (overlap x y)).1,
    (centeredSums (overlap x y)).2.1 * (centeredSums (overlap x y)).2.2)

/-- The full correlation matrix over the combined columns. -/
def corrMatrix (cols : List (List (Option ℚ))) : List (List (Option (ℚ × ℚ))) :=
  cols.map (fun x => cols.map (fun y => corrEntry x y))

/-- Outcome of `plot_correlation`: an informational message (lines 96-98 and
105-107) or a rendered correlation matrix (lines 109-113). -/
inductive CorrResult where
  | info (msg : String)
  | matrix (labels : List String) (m : List (List (Option (ℚ × ℚ))))
  deriving DecidableEq, Repr

/-- Whether the outcome is the informational no-result state. -/
def CorrResult.isInfo : CorrResult → Bool
  | .info _ => true
  | .matrix _ _ => false

/-- `plot_correlation(coins_dict)` (lines 95-113): fewer than 2 entries, or an
empty combined frame (no rows or no columns — pandas `DataFrame.empty`),
yields an informational message; otherwise `combined_returns.corr()` is
computed and rendered. -/
def plot_correlation (coins : List (String × Frame)) : CorrResult :=
  if coins.length < 2 then .info "Need at least 2 coins for correlation analysis."
  else
    let c := buildCombined coins
    if c.1.isEmpty || c.2.isEmpty then .info "No valid data for correlation."
    else .matrix (c.2.map Prod.fst) (corrMatrix (c.2.map Prod.snd))

/-- Matrix entry access (out-of-range reads give `none`, matching an absent
entry). -/
def getE (m : List (List (Option (ℚ × ℚ)))) (i j : ℕ) : Option (ℚ × ℚ) :=
  (m.getD i []).getD j none

/-! ## Helper lemmas -/

theorem calculate_metrics_frame (rate : ℚ) (df : Frame) :
    ((calculate_metrics rate df).2).idx = df.idx ∧
    ((calculate_metrics rate df).2).price = df.price ∧
    (((calculate_metrics rate df).2).returns = df.returns ∨
      ((calculate_metrics rate df).2).returns = some (pctChange df.price)) := by
  by_cases h : df.isEmpty
  · simp [calculate_metrics, h]
  · simp [calculate_metrics, h]

/-! ## Claims -/

/-- C1: for a PriceSeries with fewer than 2 points, `calculate_metrics` is
claimed to return the all-zero Metrics record with no NaN anywhere, the
standard deviation over fewer than 2 returns being treated as 0.  The code
meets this for the empty series, but for a single-point series (and for a
two-point series) the pandas sample standard deviation over fewer than 2
non-NaN returns is NaN, so `Volatility = std * sqrt(365)` is NaN
(`volatilitySq = none`), not 0: the explicit NaN guard exists only on the
Sharpe path (line 55), not on the volatility path (line 49). -/
theorem c1_volatility_nan_on_short_series :
    (calculate_metrics (4/100) (natFrame [])).1 =
      { totalReturn := 0, volatilitySq := some 0, sharpeSgnSq := 0, maxDrawdown := 0 } ∧
    (calculate_metrics (4/100) (natFrame [100])).1 =
      { totalReturn := 0, volatilitySq := none, sharpeSgnSq := 0, maxDrawdown := 0 } ∧
    (calculate_metrics (4/100) (natFrame [100, 110])).1.volatilitySq = none := by
  refine ⟨by simp +decide [calculate_metrics, natFrame, Frame.isEmpty], ?_, ?_⟩
  · simp +decide [calculate_metrics, natFrame, Frame.isEmpty, validRets, pctChange,
      pctChange.pctChangeAux, varOpt, drawdowns, cummax, cummax.cummaxAux]
  · simp +decide [calculate_metrics, natFrame, Frame.isEmpty, validRets, pctChange,
      pctChange.pctChangeAux, varOpt, drawdowns, cummax, cummax.cummaxAux]

/-- C9: on prices `[100, 110, 99, 121]` the computed return sequence is
`[0.10, -0.10, 0.2222...]` (`22/99 = 2/9`), `TotalReturn = 0.21`, the
pointwise drawdowns are `[0, 0, 99/110 - 1, 0]`, and
`MaxDrawdown = -0.10`. -/
theorem c9_scenario_prices_100_110_99_121 :
    validRets (pctChange [100, 110, 99, 121]) = [1/10, -1/10, 22/99] ∧
    drawdowns [100, 110, 99, 121] = [0, 0, 99/110 - 1, 0] ∧
    (calculate_metrics (4/100) (natFrame [100, 110, 99, 121])).1.totalReturn = 21/100 ∧
    (calculate_metrics (4/100) (natFrame [100, 110, 99, 121])).1.maxDrawdown = -1/10 := by
  refine ⟨?_, ?_, ?_, ?_⟩
  · simp [validRets, pctChange, pctChange.pctChangeAux]
    norm_num
  · simp [drawdowns, cummax, cummax.cummaxAux]
    norm_num
  · simp +decide [calculate_metrics, natFrame, Frame.isEmpty]
    norm_num
  · simp +decide [calculate_metrics, natFrame, Frame.isEmpty, drawdowns, cummax,
      cummax.cummaxAux]
    norm_num

/-- C10: computing the report metrics never changes the InstrumentSet's keys
nor any stored series' dates, prices or row count; the only write is the
derived `Returns` column (left untouched on an empty frame, set to the
`pct_change` of the stored prices otherwise). -/
theorem c10_metrics_frame_condition (coins : List (String × Frame)) :
    (reportStep coins).map Prod.fst = coins.map Prod.fst ∧
    List.Forall₂ (fun e2 e =>
      e2.2.idx = e.2.idx ∧ e2.2.price = e.2.price ∧
      e2.2.price.length = e.2.price.length ∧
      (e2.2.returns = e.2.returns ∨ e2.2.returns = some (pctChange e.2.price)))
      (reportStep coins) coins := by
  constructor
  · simp [reportStep]
  · induction coins with
    | nil => simp [reportStep]
    | cons e rest ih =>
        refine List.Forall₂.cons ?_ ih
        obtain ⟨h1, h2, h3⟩ := calculate_metrics_frame (4/100) e.2
        exact ⟨h1, h2, by rw [h2], h3⟩

theorem mem_insertRow {β : Type} (x a : DVal × β) (l : List (DVal × β)) :
    a ∈ insertRow x l ↔ a = x ∨ a ∈ l := by
  induction l with
  | nil => simp [insertRow]
  | cons y ys ih =>
      by_cases h : DVal.ble x.1 y.1
      · simp [insertRow, h, List.mem_cons]
      · simp [insertRow, h, List.mem_cons, ih]
        tauto

theorem mem_sortRows {β : Type} (a : DVal × β) (l : List (DVal × β)) :
    a ∈ sortRows l ↔ a ∈ l := by
  induction l with
  | nil => simp [sortRows]
  | cons y ys ih => simp [sortRows, mem_insertRow, ih]

/-- Inversion of a successful load: the produced frame is the sorted, parsed,
filtered rendering of the table's date and price columns. -/
theorem innerLoad_ok_shape (t : RawTable) (f : Frame)
    (h : innerLoad t = .ok f) :
    ∃ dates : List DVal, f = frameOf (parsedRows dates (priceColumn t)) := by
  unfold innerLoad at h
  by_cases hD : "Date" ∈ t.cols
  · rw [if_pos hD] at h
    by_cases hC : "Close/Last" ∈ t.cols.map titleName
    · rw [if_pos hC, Except.ok.injEq] at h
      exact ⟨datesOf t, h.symm⟩
    · rw [if_neg hC] at h
      exact absurd h (by simp)
  · rw [if_neg hD] at h
    exact absurd h (by simp)

/-- C2: the claim says every retained point has a positive price.  The code
only drops rows whose price fails to parse (`to_numeric(errors='coerce')` +
`dropna`); a non-positive numeric price parses fine and is retained: on a
one-row table with price `-5`, the loader returns that row. -/
theorem c2_cex_nonpositive_price_retained :
    load_data_from_csv { cols := ["Date", "Close/Last"],
                         rows := [["2020-01-01", "-5"]] } =
      some { idx := [DVal.t 20200101], price := [-5], returns := none } ∧
    ¬ (0 : ℚ) < -5 := by
  constructor
  · simp +decide [load_data_from_csv, innerLoad, colIdx, columnAt, sortRows,
      insertRow, titleName, pyTitleAux, trimChars, parseDate, splitOnChar,
      parseNum, parseNumAux, digitsToNat, stripDollarComma]
  · norm_num

/-- C2 (amended): every price retained by `load_data_from_csv` is the faithful
numeric parse of some cell of the table's price column after currency and
thousands-separator stripping — unparseable prices are dropped, never
coerced; non-positive prices, however, are retained, not dropped. -/
theorem c2_retained_prices_are_parses (t : RawTable) (f : Frame)
    (h : load_data_from_csv t = some f) :
    ∀ q ∈ f.price, ∃ cell ∈ priceColumn t,
      parseNum (stripDollarComma cell) = some q := by
  have hok : innerLoad t = .ok f := by
    unfold load_data_from_csv at h
    cases hi : innerLoad t with
    | ok g => rw [hi] at h; cases h; rfl
    | error e => rw [hi] at h; cases h
  obtain ⟨dates, hf⟩ := innerLoad_ok_shape t f hok
  subst hf
  intro q hq
  simp only [frameOf, parsedRows] at hq
  rw [List.mem_map] at hq
  obtain ⟨pair, hpair, hsnd⟩ := hq
  rw [List.mem_filterMap] at hpair
  obtain ⟨p, hp, hg⟩ := hpair
  obtain ⟨d, c⟩ := p
  have hps : parseNum c = some q := by
    cases hparse : parseNum c with
    | none => rw [hparse] at hg; simp at hg
    | some v =>
        rw [hparse] at hg
        simp only [Option.map_some', Option.some.injEq] at hg
        rw [← hg] at hsnd
        exact congrArg some hsnd
  have hz : (d, c) ∈ dates.zip ((priceColumn t).map stripDollarComma) :=
    (mem_sortRows _ _).mp hp
  have hc : c ∈ (priceColumn t).map stripDollarComma := (List.of_mem_zip hz).2
  rw [List.mem_map] at hc
  obtain ⟨cell, hcell, hstrip⟩ := hc
  exact ⟨cell, hcell, by rw [hstrip]; exact hps⟩

/-- Witness for `c2_retained_prices_are_parses` at a concrete table. -/
theorem c2_retained_prices_are_parses_witness :
    load_data_from_csv (RawTable.mk ["Date", "Close/Last"] [["2020-01-01", "$1,234"]]) =
      some (Frame.mk [DVal.t 20200101] [1234] none) ∧
    ∀ q ∈ (Frame.mk [DVal.t 20200101] [1234] none).price,
      ∃ cell ∈ priceColumn (RawTable.mk ["Date", "Close/Last"] [["2020-01-01", "$1,234"]]),
        parseNum (stripDollarComma cell) = some q := by
  have h : load_data_from_csv (RawTable.mk ["Date", "Close/Last"] [["2020-01-01", "$1,234"]]) =
      some (Frame.mk [DVal.t 20200101] [1234] none) := by
    simp +decide [load_data_from_csv, innerLoad, colIdx, columnAt, sortRows,
      insertRow, titleName, pyTitleAux, trimChars, parseDate, splitOnChar,
      parseNum, parseNumAux, digitsToNat, stripDollarComma]
  exact ⟨h, c2_retained_prices_are_parses _ _ h⟩

/-- C6: `load_data_from_csv` is total on raw tables: every run either
succeeds with a frame, or every internal failure (the structured error of
the inner pipeline) is caught and surfaced as the `None` result — no raw
exception reaches the caller. -/
theorem c6_loader_contains_failures (t : RawTable) :
    (∃ f, innerLoad t = .ok f ∧ load_data_from_csv t = some f) ∨
    (∃ e, innerLoad t = .error e ∧ load_data_from_csv t = none) := by
  cases h : innerLoad t with
  | ok f => exact .inl ⟨f, rfl, by simp [load_data_from_csv, h]⟩
  | error e => exact .inr ⟨e, rfl, by simp [load_data_from_csv, h]⟩

/-- C7: a table (with a date column) missing the close/last-price column
makes the loader fail with the schema error listing the available
(normalized) column names, produce no series, and leave the InstrumentSet
dictionary exactly as it was. -/
theorem c7_schema_error_leaves_set_unchanged (coins : List (String × Frame))
    (ticker : String) (t : RawTable) (hD : "Date" ∈ t.cols)
    (hC : "Close/Last" ∉ t.cols.map titleName) :
    innerLoad t = .error (.schema (t.cols.map titleName)) ∧
    load_data_from_csv t = none ∧
    loadStep coins ticker t = coins := by
  have h1 : innerLoad t = .error (.schema (t.cols.map titleName)) := by
    unfold innerLoad
    rw [if_pos hD]
    simp only [if_neg hC]
  have h2 : load_data_from_csv t = none := by
    simp [load_data_from_csv, h1]
  exact ⟨h1, h2, by simp [loadStep, h2]⟩

/-- Witness for `c7_schema_error_leaves_set_unchanged` on a concrete table. -/
theorem c7_schema_error_leaves_set_unchanged_witness :
    "Date" ∈ (["Date", "Volume"] : List String) ∧
    "Close/Last" ∉ (["Date", "Volume"] : List String).map titleName ∧
    loadStep [("BTC", natFrame [100, 110])] "ETH"
      { cols := ["Date", "Volume"], rows := [["2020-01-01", "5"]] } =
      [("BTC", natFrame [100, 110])] := by
  refine ⟨by decide, by decide, ?_⟩
  exact (c7_schema_error_leaves_set_unchanged [("BTC", natFrame [100, 110])] "ETH"
    { cols := ["Date", "Volume"], rows := [["2020-01-01", "5"]] }
    (by decide) (by decide)).2.2

theorem zip_map_snd {β γ : Type} (f : β → γ) (l1 : List DVal) (l2 : List β) :
    l1.zip (l2.map f) = (l1.zip l2).map (fun p => (p.1, f p.2)) := by
  induction l1 generalizing l2 with
  | nil => simp
  | cons a as ih => cases l2 <;> simp_all

theorem insertRow_map {β γ : Type} (f : β → γ) (x : DVal × β) (l : List (DVal × β)) :
    insertRow (x.1, f x.2) (l.map (fun p => (p.1, f p.2))) =
      (insertRow x l).map (fun p => (p.1, f p.2)) := by
  induction l with
  | nil => simp [insertRow]
  | cons y ys ih => by_cases h : DVal.ble x.1 y.1 <;> simp [insertRow, h, ih]

theorem sortRows_map {β γ : Type} (f : β → γ) (l : List (DVal × β)) :
    sortRows (l.map (fun p => (p.1, f p.2))) =
      (sortRows l).map (fun p => (p.1, f p.2)) := by
  induction l with
  | nil => simp [sortRows]
  | cons x xs ih =>
      simp only [List.map_cons, sortRows, ih]
      exact insertRow_map f x (sortRows xs)

/-- Parsing prices before sorting (the spec's step order) and sorting before
parsing (the source's) give the same retained rows: the sort key is the
date component, untouched by price parsing. -/
theorem specRows_eq_parsedRows (dates : List DVal) (cells : List String) :
    specRows dates cells = parsedRows dates cells := by
  unfold specRows parsedRows
  rw [zip_map_snd, sortRows_map, List.filterMap_map]
  rfl

/-- C3: the claim lists the loader's normalization steps with date parsing in
fifth position, after the schema steps, and failing the whole load on any
unparseable date.  In the code date parsing happens first, inside
`read_csv(parse_dates=['Date'])`, and an unparseable date does not fail the
load: pandas keeps the column as text and the row survives (sorted
lexicographically).  On a one-row table with date `notadate` the code
returns the row while the spec-ordered pipeline fails with the parse
error. -/
theorem c3_cex_unparseable_date_does_not_fail :
    innerLoad (RawTable.mk ["Date", "Close/Last"] [["notadate", "5"]]) =
      .ok (Frame.mk [DVal.s "notadate"] [5] none) ∧
    loadSpecOrder (RawTable.mk ["Date", "Close/Last"] [["notadate", "5"]]) =
      .error .parse := by
  constructor <;>
    simp +decide [innerLoad, loadSpecOrder, datesOf, specDates, parsedRows,
      specRows, frameOf, priceColumn, colIdx, columnAt, sortRows, insertRow,
      titleName, pyTitleAux, trimChars, parseDate, splitOnChar, parseNum,
      parseNumAux, digitsToNat, stripDollarComma]

/-- C3 (amended): the loader performs the claimed normalization steps, except
that the date column is parsed first, during the initial read, under its
literal (pre-normalization) name `Date`, and unparseable date values keep
the column textual instead of failing the load; price parsing happens after
sorting, which is observationally equivalent to the claimed
parse-then-sort order.  Hence on any table whose `Date` column is found at
the same position before and after title-casing and whose dates all parse,
the code's pipeline agrees exactly with the spec-ordered pipeline
(including the schema-error case); and `"$1,234.50"` parses to
`1234.50`. -/
theorem c3_normalization_order (t : RawTable) (hD : "Date" ∈ t.cols)
    (hIdx : colIdx "Date" (t.cols.map titleName) = colIdx "Date" t.cols)
    (hParse : (columnAt t (colIdx "Date" t.cols)).all
      (fun c => (parseDate c).isSome) = true) :
    innerLoad t = loadSpecOrder t ∧
    parseNum (stripDollarComma "$1,234.50") = some (2469/2) := by
  constructor
  · have hDt : "Date" ∈ t.cols.map titleName := by
      have ht : titleName "Date" = "Date" := by decide
      exact ht ▸ List.mem_map_of_mem titleName hD
    have hdates : datesOf t = specDates t := by
      unfold datesOf specDates
      rw [if_pos hParse, hIdx]
    unfold innerLoad loadSpecOrder
    rw [if_pos hD, hIdx]
    by_cases hC : "Close/Last" ∈ t.cols.map titleName
    · rw [if_pos hC, if_pos hC, if_pos hDt, if_pos hParse,
        specRows_eq_parsedRows, hdates]
    · rw [if_neg hC, if_neg hC]
  · simp +decide [parseNum, parseNumAux, stripDollarComma, digitsToNat]
    norm_num

/-- Witness for `c3_normalization_order` on a concrete two-row table. -/
theorem c3_normalization_order_witness :
    "Date" ∈ (RawTable.mk ["Date", "Close/Last"]
      [["2020-01-02", "6"], ["2020-01-01", "5"]]).cols ∧
    colIdx "Date" ((RawTable.mk ["Date", "Close/Last"]
      [["2020-01-02", "6"], ["2020-01-01", "5"]]).cols.map titleName) =
      colIdx "Date" (RawTable.mk ["Date", "Close/Last"]
        [["2020-01-02", "6"], ["2020-01-01", "5"]]).cols ∧
    (columnAt (RawTable.mk ["Date", "Close/Last"]
        [["2020-01-02", "6"], ["2020-01-01", "5"]])
      (colIdx "Date" (RawTable.mk ["Date", "Close/Last"]
        [["2020-01-02", "6"], ["2020-01-01", "5"]]).cols)).all
      (fun c => (parseDate c).isSome) = true ∧
    innerLoad (RawTable.mk ["Date", "Close/Last"]
        [["2020-01-02", "6"], ["2020-01-01", "5"]]) =
      loadSpecOrder (RawTable.mk ["Date", "Close/Last"]
        [["2020-01-02", "6"], ["2020-01-01", "5"]]) := by
  refine ⟨by decide, by decide, by decide, ?_⟩
  exact (c3_normalization_order _ (by decide) (by decide) (by decide)).1

/-! ## Drawdown lemmas (C4) -/

theorem foldl_min_le_init (l : List ℚ) (a : ℚ) : l.foldl min a ≤ a := by
  induction l generalizing a with
  | nil => simp
  | cons x xs ih => exact le_trans (ih (min a x)) (min_le_left a x)

theorem foldl_min_mem (l : List ℚ) (a : ℚ) :
    l.foldl min a = a ∨ l.foldl min a ∈ l := by
  induction l generalizing a with
  | nil => simp
  | cons x xs ih =>
      rcases ih (min a x) with h | h
      · rcases le_total a x with hax | hxa
        · left
          rw [List.foldl_cons, h, min_eq_left hax]
        · right
          rw [List.foldl_cons, h, min_eq_right hxa]
          exact List.mem_cons_self x xs
      · right
        exact List.mem_cons_of_mem x h

theorem foldl_min_le_mem (l : List ℚ) (a : ℚ) : ∀ x ∈ l, l.foldl min a ≤ x := by
  induction l generalizing a with
  | nil => simp
  | cons y ys ih =>
      intro x hx
      rcases List.mem_cons.mp hx with rfl | hx
      · exact le_trans (foldl_min_le_init ys (min a x)) (min_le_right a x)
      · exact ih (min a y) x hx

theorem cummaxAux_getD (ps : List ℚ) :
    ∀ (m : ℚ) (i : ℕ), i < ps.length →
      (cummax.cummaxAux m ps).getD i 0 = max m ((cummax ps).getD i 0) := by
  induction ps with
  | nil => intro m i h; simp at h
  | cons p rest ih =>
      intro m i h
      cases i with
      | zero => simp [cummax.cummaxAux, cummax]
      | succ i =>
          have hi : i < rest.length := by simpa using h
          simp only [cummax.cummaxAux, cummax, List.getD_cons_succ]
          rw [ih (max m p) i hi, ih p i hi, max_assoc]

theorem cummax_getD_mem (ps : List ℚ) :
    ∀ i : ℕ, i < ps.length → (cummax ps).getD i 0 ∈ ps.take (i + 1) := by
  induction ps with
  | nil => intro i h; simp at h
  | cons p rest ih =>
      intro i h
      cases i with
      | zero => simp [cummax]
      | succ i =>
          have hi : i < rest.length := by simpa using h
          simp only [cummax, List.getD_cons_succ, List.take_succ_cons]
          rw [cummaxAux_getD rest p i hi]
          rcases max_choice p ((cummax rest).getD i 0) with hc | hc
          · rw [hc]; exact List.mem_cons_self _ _
          · rw [hc]; exact List.mem_cons_of_mem p (ih i hi)

theorem cummax_getD_ub (ps : List ℚ) :
    ∀ i : ℕ, i < ps.length → ∀ q ∈ ps.take (i + 1), q ≤ (cummax ps).getD i 0 := by
  induction ps with
  | nil => intro i h; simp at h
  | cons p rest ih =>
      intro i h q hq
      cases i with
      | zero =>
          have hq2 : q = p := by simpa using hq
          simp [cummax, hq2]
      | succ i =>
          have hi : i < rest.length := by simpa using h
          simp only [cummax, List.getD_cons_succ]
          rw [cummaxAux_getD rest p i hi]
          rcases List.mem_cons.mp (by simpa using hq) with rfl | hq2
          · exact le_max_left _ _
          · exact le_trans (ih i hi q hq2) (le_max_right _ _)

theorem cummax_getD_mono (ps : List ℚ) :
    ∀ i : ℕ, i + 1 < ps.length →
      (cummax ps).getD i 0 ≤ (cummax ps).getD (i + 1) 0 := by
  induction ps with
  | nil => intro i h; simp at h
  | cons p rest ih =>
      intro i h
      cases i with
      | zero =>
          have h0 : 0 < rest.length := by simpa using h
          simp only [cummax, List.getD_cons_zero, List.getD_cons_succ]
          rw [cummaxAux_getD rest p 0 h0]
          exact le_max_left _ _
      | succ i =>
          have hi : i + 1 < rest.length := by simpa using h
          simp only [cummax, List.getD_cons_succ]
          rw [cummaxAux_getD rest p i (Nat.lt_of_succ_lt hi),
            cummaxAux_getD rest p (i + 1) hi]
          exact max_le_max le_rfl (ih i hi)

theorem cummax_length (ps : List ℚ) : (cummax ps).length = ps.length := by
  have aux : ∀ (l : List ℚ) (m : ℚ), (cummax.cummaxAux m l).length = l.length := by
    intro l
    induction l with
    | nil => intro m; rfl
    | cons x xs ih => intro m; simp [cummax.cummaxAux, ih]
  cases ps with
  | nil => rfl
  | cons p rest => simp [cummax, aux]

theorem drawdowns_length (ps : List ℚ) : (drawdowns ps).length = ps.length := by
  simp [drawdowns, cummax_length]

theorem getD_zipWith (f : ℚ → ℚ → ℚ) (xs : List ℚ) :
    ∀ (ys : List ℚ) (i : ℕ), i < xs.length → i < ys.length →
      (List.zipWith f xs ys).getD i 0 = f (xs.getD i 0) (ys.getD i 0) := by
  induction xs with
  | nil => intro ys i h; simp at h
  | cons x xs ih =>
      intro ys i hx hy
      cases ys with
      | nil => simp at hy
      | cons y ys =>
          cases i with
          | zero => simp
          | succ i =>
              simp only [List.zipWith_cons_cons, List.getD_cons_succ]
              exact ih ys i (by simpa using hx) (by simpa using hy)

theorem drawdowns_getD (ps : List ℚ) (i : ℕ) (h : i < ps.length) :
    (drawdowns ps).getD i 0 = ps.getD i 0 / (cummax ps).getD i 0 - 1 := by
  unfold drawdowns
  exact getD_zipWith _ ps (cummax ps) i h (by rw [cummax_length]; exact h)

theorem getD_mem_take (ps : List ℚ) :
    ∀ i : ℕ, i < ps.length → ps.getD i 0 ∈ ps.take (i + 1) := by
  induction ps with
  | nil => intro i h; simp at h
  | cons p rest ih =>
      intro i h
      cases i with
      | zero => simp
      | succ i =>
          have hi : i < rest.length := by simpa using h
          simp only [List.getD_cons_succ, List.take_succ_cons]
          exact List.mem_cons_of_mem p (ih i hi)

theorem mem_getD (l : List ℚ) (a : ℚ) (h : a ∈ l) :
    ∃ i, i < l.length ∧ l.getD i 0 = a := by
  induction l with
  | nil => cases h
  | cons x xs ih =>
      rcases List.mem_cons.mp h with rfl | h2
      · exact ⟨0, by simp, rfl⟩
      · obtain ⟨i, hi, he⟩ := ih h2
        exact ⟨i + 1, by simpa using hi, he⟩

theorem drawdowns_bounds (ps : List ℚ) (hpos : ∀ p ∈ ps, 0 < p) :
    ∀ d ∈ drawdowns ps, -1 < d ∧ d ≤ 0 := by
  intro d hd
  obtain ⟨i, hi, he⟩ := mem_getD _ _ hd
  rw [drawdowns_length] at hi
  rw [drawdowns_getD ps i hi] at he
  have hp : 0 < ps.getD i 0 := hpos _ (List.take_subset (i + 1) ps (getD_mem_take ps i hi))
  have hple : ps.getD i 0 ≤ (cummax ps).getD i 0 :=
    cummax_getD_ub ps i hi _ (getD_mem_take ps i hi)
  have hm : 0 < (cummax ps).getD i 0 := lt_of_lt_of_le hp hple
  constructor
  · have : 0 < ps.getD i 0 / (cummax ps).getD i 0 := div_pos hp hm
    rw [← he]; linarith
  · have : ps.getD i 0 / (cummax ps).getD i 0 ≤ 1 := (div_le_one hm).mpr hple
    rw [← he]; linarith

/-- The MaxDrawdown component of `calculate_metrics` (with the menu's default
risk-free rate) on a series of prices. -/
def mdOf (ps : List ℚ) : ℚ :=
  (calculate_metrics (4/100) (natFrame ps)).1.maxDrawdown

theorem mdOf_eq (ps : List ℚ) :
    mdOf ps = match drawdowns ps with
              | [] => 0
              | d :: ds => ds.foldl min d := by
  cases ps with
  | nil => simp [mdOf, calculate_metrics, natFrame, Frame.isEmpty, drawdowns, cummax]
  | cons p rest =>
      simp [mdOf, calculate_metrics, natFrame, Frame.isEmpty]

/-- C4: MaxDrawdown is the minimum over all points of
`price / running-peak - 1`, where the running peak (`cummax`) is the
monotonically non-decreasing maximum price up to and including each point;
for every positive-price series it lies in `[-1, 0]`, and it is `0` when
the series never fell below its running peak or is empty. -/
theorem c4_max_drawdown_spec (ps : List ℚ) (hpos : ∀ p ∈ ps, 0 < p) :
    mdOf ps ≤ 0 ∧
    -1 ≤ mdOf ps ∧
    (ps ≠ [] → mdOf ps ∈ drawdowns ps ∧ ∀ d ∈ drawdowns ps, mdOf ps ≤ d) ∧
    (∀ i, i < ps.length →
      (drawdowns ps).getD i 0 = ps.getD i 0 / (cummax ps).getD i 0 - 1) ∧
    (∀ i, i < ps.length →
      (cummax ps).getD i 0 ∈ ps.take (i + 1) ∧
      ∀ q ∈ ps.take (i + 1), q ≤ (cummax ps).getD i 0) ∧
    (∀ i, i + 1 < ps.length →
      (cummax ps).getD i 0 ≤ (cummax ps).getD (i + 1) 0) ∧
    ((∀ i, i < ps.length → (cummax ps).getD i 0 ≤ ps.getD i 0) → mdOf ps = 0) := by
  by_cases hne : ps = []
  · subst hne
    have h0 : mdOf [] = 0 := by rw [mdOf_eq]; rfl
    refine ⟨by rw [h0], by rw [h0]; norm_num, by tauto, ?_, ?_, ?_, fun _ => h0⟩
    · intro i hi; simp at hi
    · intro i hi; simp at hi
    · intro i hi; simp at hi
  · have hmin : mdOf ps ∈ drawdowns ps ∧ ∀ d ∈ drawdowns ps, mdOf ps ≤ d := by
      cases hdd : drawdowns ps with
      | nil =>
          exfalso
          have := drawdowns_length ps
          rw [hdd] at this
          exact hne (List.length_eq_zero.mp this.symm)
      | cons d ds =>
          have hmd : mdOf ps = ds.foldl min d := by rw [mdOf_eq, hdd]
          constructor
          · rw [hmd]
            rcases foldl_min_mem ds d with h | h
            · rw [h]; exact List.mem_cons_self d ds
            · exact List.mem_cons_of_mem d h
          · intro x hx
            rw [hmd]
            rcases List.mem_cons.mp hx with rfl | hx2
            · exact foldl_min_le_init ds x
            · exact foldl_min_le_mem ds d x hx2
    have hbounds := drawdowns_bounds ps hpos (mdOf ps) hmin.1
    refine ⟨hbounds.2, le_of_lt hbounds.1, fun _ => hmin, drawdowns_getD ps,
      fun i hi => ⟨cummax_getD_mem ps i hi, cummax_getD_ub ps i hi⟩,
      cummax_getD_mono ps, ?_⟩
    intro hflat
    have hzero : ∀ d ∈ drawdowns ps, d = 0 := by
      intro d hd
      obtain ⟨i, hi, he⟩ := mem_getD _ _ hd
      rw [drawdowns_length] at hi
      rw [drawdowns_getD ps i hi] at he
      have hple : ps.getD i 0 ≤ (cummax ps).getD i 0 :=
        cummax_getD_ub ps i hi _ (getD_mem_take ps i hi)
      have heq : (cummax ps).getD i 0 = ps.getD i 0 := le_antisymm (hflat i hi) hple
      have hp : 0 < ps.getD i 0 :=
        hpos _ (List.take_subset (i + 1) ps (getD_mem_take ps i hi))
      rw [heq, div_self (ne_of_gt hp)] at he
      rw [← he]
      norm_num
    exact hzero _ hmin.1

/-- Witness for `c4_max_drawdown_spec` on the series `[4, 2, 6]`. -/
theorem c4_max_drawdown_spec_witness :
    (∀ p ∈ ([4, 2, 6] : List ℚ), 0 < p) ∧
    mdOf [4, 2, 6] ≤ 0 ∧ -1 ≤ mdOf [4, 2, 6] ∧
    (([4, 2, 6] : List ℚ) ≠ [] →
      mdOf [4, 2, 6] ∈ drawdowns [4, 2, 6] ∧
      ∀ d ∈ drawdowns [4, 2, 6], mdOf [4, 2, 6] ≤ d) := by
  have hpos : ∀ p ∈ ([4, 2, 6] : List ℚ), 0 < p := by
    intro p hp
    rcases List.mem_cons.mp hp with rfl | hp
    · norm_num
    rcases List.mem_cons.mp hp with rfl | hp
    · norm_num
    rcases List.mem_cons.mp hp with rfl | hp
    · norm_num
    · cases hp
  have h := c4_max_drawdown_spec [4, 2, 6] hpos
  exact ⟨hpos, h.1, h.2.1, h.2.2.1⟩

/-! ## Correlation short-circuit (C5) -/

theorem addCols_fst (idx : List DVal) :
    ∀ (rest : List (String × Frame)) (acc : List (String × List (Option ℚ))),
      (addCols idx acc rest).1 = idx := by
  intro rest
  induction rest with
  | nil => intro acc; rfl
  | cons e rest ih =>
      intro acc
      obtain ⟨n, df⟩ := e
      by_cases h : df.isEmpty <;> simp [addCols, h, ih]

theorem addCols_snd_ne (idx : List DVal) :
    ∀ (rest : List (String × Frame)) (acc : List (String × List (Option ℚ))),
      acc ≠ [] → (addCols idx acc rest).2 ≠ [] := by
  intro rest
  induction rest with
  | nil => intro acc h; simpa [addCols] using h
  | cons e rest ih =>
      intro acc h
      obtain ⟨n, df⟩ := e
      by_cases he : df.isEmpty
      · simpa [addCols, he] using ih acc h
      · simp only [addCols, he]
        simp only [Bool.false_eq_true, if_false]
        exact ih _ (by simp)

theorem buildCombined_all_empty (coins : List (String × Frame))
    (h : ∀ e ∈ coins, e.2.isEmpty = true) : buildCombined coins = ([], []) := by
  induction coins with
  | nil => rfl
  | cons e rest ih =>
      obtain ⟨n, df⟩ := e
      have hd : df.isEmpty = true := h (n, df) (List.mem_cons_self _ _)
      simp only [buildCombined, hd, if_true]
      exact ih (fun x hx => h x (List.mem_cons_of_mem _ hx))

theorem buildCombined_some_nonempty (coins : List (String × Frame))
    (h : ∃ e ∈ coins, ¬ e.2.isEmpty = true) :
    (buildCombined coins).1 ≠ [] ∧ (buildCombined coins).2 ≠ [] := by
  induction coins with
  | nil => obtain ⟨e, he, _⟩ := h; cases he
  | cons e rest ih =>
      obtain ⟨n, df⟩ := e
      by_cases hd : df.isEmpty
      · have hrest : ∃ e ∈ rest, ¬ e.2.isEmpty = true := by
          obtain ⟨x, hx, hxe⟩ := h
          rcases List.mem_cons.mp hx with rfl | hx2
          · exact absurd hd hxe
          · exact ⟨x, hx2, hxe⟩
        simpa [buildCombined, hd] using ih hrest
      · simp only [buildCombined, hd, Bool.false_eq_true, if_false]
        constructor
        · rw [addCols_fst]
          simpa [Frame.isEmpty, List.isEmpty_iff] using hd
        · exact addCols_snd_ne _ _ _ (by simp)

/-- C5: the claim says the matrix is produced only when at least 2 instruments
have non-empty aligned return data, and that a non-empty set yielding no
overlapping data gives the informational no-result state.  In the code the
no-data check is `combined_returns.empty`, which only fires when every
stored frame is empty: two single-point instruments on disjoint dates have
no overlapping return data at all, yet a (NaN-filled) 2x2 matrix is
produced and rendered. -/
theorem c5_cex_disjoint_series_still_produce_matrix :
    plot_correlation
        [("A", Frame.mk [DVal.t 1] [100] (some [none])),
         ("B", Frame.mk [DVal.t 2] [200] (some [none]))] =
      .matrix ["A", "B"] [[none, none], [none, none]] ∧
    overlap [none] ([none] : List (Option ℚ)) = [] := by
  constructor
  · decide
  · decide

/-- C5 (amended): the correlation operation short-circuits to the
informational no-result state exactly when fewer than 2 instruments are
loaded, or when every stored series is empty (the `combined_returns.empty`
check); a set of at least 2 instruments with at least one non-empty series
always produces a matrix, even when no returns overlap (the entries are
then all NaN). -/
theorem c5_no_result_iff (coins : List (String × Frame)) :
    (plot_correlation coins).isInfo = true ↔
      (coins.length < 2 ∨ ∀ e ∈ coins, e.2.idx = []) := by
  unfold plot_correlation
  by_cases hlen : coins.length < 2
  · simp [hlen, CorrResult.isInfo]
  · rw [if_neg hlen]
    by_cases hall : ∀ e ∈ coins, e.2.isEmpty = true
    · have hb := buildCombined_all_empty coins hall
      rw [hb]
      simp only [List.isEmpty_nil, Bool.or_self, if_true, CorrResult.isInfo]
      constructor
      · intro _
        right
        intro e he
        simpa [Frame.isEmpty, List.isEmpty_iff] using hall e he
      · intro _; trivial
    · push_neg at hall
      obtain ⟨x, hx, hxe⟩ := hall
      have hb := buildCombined_some_nonempty coins ⟨x, hx, hxe⟩
      rw [if_neg (by simpa [List.isEmpty_iff] using hb)]
      simp only [CorrResult.isInfo, Bool.false_eq_true, false_iff]
      push_neg
      refine ⟨by omega, x, hx, ?_⟩
      simpa [Frame.isEmpty, List.isEmpty_iff] using hxe

/-! ## Correlation matrix properties (C8) -/

theorem sum_map_sq_nonneg (f : ℚ × ℚ → ℚ) (l : List (ℚ × ℚ)) :
    0 ≤ (l.map (fun p => (f p) ^ 2)).sum := by
  induction l with
  | nil => simp
  | cons x xs ih =>
      simp only [List.map_cons, List.sum_cons]
      exact add_nonneg (sq_nonneg (f x)) ih

theorem list_cauchy_schwarz (l : List (ℚ × ℚ)) :
    ((l.map (fun p => p.1 * p.2)).sum) ^ 2 ≤
      ((l.map (fun p => p.1 ^ 2)).sum) * ((l.map (fun p => p.2 ^ 2)).sum) := by
  induction l with
  | nil => simp
  | cons x xs ih =>
      simp only [List.map_cons, List.sum_cons]
      have hA := sum_map_sq_nonneg Prod.fst xs
      have hB := sum_map_sq_nonneg Prod.snd xs
      simp only at hA hB
      rcases eq_or_lt_of_le hB with hB0 | hBpos
      · have hS2 : ((xs.map (fun p => p.1 * p.2)).sum) ^ 2 ≤ 0 := by
          calc ((xs.map (fun p => p.1 * p.2)).sum) ^ 2 ≤
              ((xs.map (fun p => p.1 ^ 2)).sum) * ((xs.map (fun p => p.2 ^ 2)).sum) := ih
          _ = 0 := by rw [← hB0, mul_zero]
        have hS : (xs.map (fun p => p.1 * p.2)).sum = 0 :=
          sq_eq_zero_iff.mp (le_antisymm hS2 (sq_nonneg _))
        rw [hS, ← hB0]
        nlinarith [mul_nonneg hA (sq_nonneg x.2)]
      · have key : 2 * (x.1 * x.2) * (xs.map (fun p => p.1 * p.2)).sum ≤
            x.1 ^ 2 * (xs.map (fun p => p.2 ^ 2)).sum +
            (xs.map (fun p => p.1 ^ 2)).sum * x.2 ^ 2 := by
          nlinarith [sq_nonneg (x.1 * (xs.map (fun p => p.2 ^ 2)).sum -
              x.2 * (xs.map (fun p => p.1 * p.2)).sum),
            mul_le_mul_of_nonneg_left ih (sq_nonneg x.2), hBpos, ih, hA]
        nlinarith [key, ih]

theorem overlap_nil_left (y : List (Option ℚ)) : overlap [] y = [] := by
  simp [overlap]

theorem overlap_nil_right (x : List (Option ℚ)) : overlap x [] = [] := by
  cases x <;> simp [overlap]

theorem overlap_swap (x : List (Option ℚ)) :
    ∀ y : List (Option ℚ), overlap y x = (overlap x y).map Prod.swap := by
  induction x with
  | nil => intro y; rw [overlap_nil_left, overlap_nil_right]; rfl
  | cons a as ih =>
      intro y
      cases y with
      | nil => rw [overlap_nil_left, overlap_nil_right]; rfl
      | cons b bs =>
          cases a with
          | none => cases b <;> simpa [overlap] using ih bs
          | some va =>
              cases b with
              | none => simpa [overlap] using ih bs
              | some vb => simpa [overlap] using ih bs

theorem overlap_cons_cons (a b : Option ℚ) (as bs : List (Option ℚ)) :
    overlap (a :: as) (b :: bs) =
      (match a, b with
        | some va, some vb => [(va, vb)]
        | _, _ => ([] : List (ℚ × ℚ))) ++ overlap as bs := by
  cases a <;> cases b <;> simp [overlap]

theorem overlap_self (x : List (Option ℚ)) :
    overlap x x = (x.filterMap id).map (fun a => (a, a)) := by
  induction x with
  | nil => rfl
  | cons a as ih => cases a <;> simp [overlap_cons_cons, ih]

theorem sum_map_congr (l : List (ℚ × ℚ)) (f g : ℚ × ℚ → ℚ)
    (h : ∀ p ∈ l, f p = g p) : (l.map f).sum = (l.map g).sum := by
  induction l with
  | nil => rfl
  | cons x xs ih =>
      simp only [List.map_cons, List.sum_cons]
      rw [h x (List.mem_cons_self _ _), ih (fun p hp => h p (List.mem_cons_of_mem _ hp))]

theorem centeredSums_swap (l : List (ℚ × ℚ)) :
    centeredSums (l.map Prod.swap) =
      ((centeredSums l).1, (centeredSums l).2.2, (centeredSums l).2.1) := by
  unfold centeredSums
  have hfst : (l.map Prod.swap).map Prod.fst = l.map Prod.snd := by
    simp [List.map_map, Function.comp]
  have hsnd : (l.map Prod.swap).map Prod.snd = l.map Prod.fst := by
    simp [List.map_map, Function.comp]
  simp only [hfst, hsnd, List.map_map, Prod.mk.injEq]
  refine ⟨?_, ?_, ?_⟩
  · exact sum_map_congr l _ _ (fun p _ => by simp [Function.comp, Prod.swap]; ring)
  · exact sum_map_congr l _ _ (fun p _ => by simp [Function.comp, Prod.swap])
  · exact sum_map_congr l _ _ (fun p _ => by simp [Function.comp, Prod.swap])

theorem isEmpty_map {γ δ : Type} (f : γ → δ) (l : List γ) :
    (l.map f).isEmpty = l.isEmpty := by
  cases l <;> rfl

theorem corrEntry_comm (x y : List (Option ℚ)) : corrEntry y x = corrEntry x y := by
  unfold corrEntry
  rw [overlap_swap x y, centeredSums_swap, isEmpty_map,
    mul_comm ((centeredSums (overlap x y)).2.2) ((centeredSums (overlap x y)).2.1)]

theorem getD_map_lt {γ δ : Type} (f : γ → δ) (dg : γ) (dd : δ) (l : List γ) :
    ∀ i : ℕ, i < l.length → (l.map f).getD i dd = f (l.getD i dg) := by
  induction l with
  | nil => intro i h; simp at h
  | cons x xs ih =>
      intro i h
      cases i with
      | zero => rfl
      | succ i => exact ih i (by simpa using h)

theorem getD_ge {γ : Type} (l : List γ) (d : γ) :
    ∀ i : ℕ, l.length ≤ i → l.getD i d = d := by
  induction l with
  | nil => intro i h; cases i <;> rfl
  | cons x xs ih =>
      intro i h
      cases i with
      | zero => simp at h
      | succ i => exact ih i (by simpa using h)

theorem corrEntry_nil_left (y : List (Option ℚ)) : corrEntry [] y = none := by
  simp [corrEntry, overlap_nil_left]

theorem corrEntry_nil_right (x : List (Option ℚ)) : corrEntry x [] = none := by
  simp [corrEntry, overlap_nil_right]

theorem getE_corrMatrix (cols : List (List (Option ℚ))) (i j : ℕ) :
    getE (corrMatrix cols) i j = corrEntry (cols.getD i []) (cols.getD j []) := by
  unfold getE corrMatrix
  by_cases hi : i < cols.length
  · rw [getD_map_lt (fun x => cols.map (fun y => corrEntry x y)) [] [] cols i hi]
    by_cases hj : j < cols.length
    · rw [getD_map_lt (fun y => corrEntry (cols.getD i []) y) [] none cols j hj]
    · rw [getD_ge _ _ j (by simpa using le_of_not_lt hj),
        getD_ge cols [] j (le_of_not_lt hj), corrEntry_nil_right]
  · rw [getD_ge _ _ i (by simpa using le_of_not_lt hi),
      getD_ge cols [] i (le_of_not_lt hi), corrEntry_nil_left]
    cases j <;> rfl

theorem corrEntry_some (x y : List (Option ℚ)) (n d : ℚ)
    (h : corrEntry x y = some (n, d)) :
    ¬ (overlap x y).isEmpty = true ∧
    n = (centeredSums (overlap x y)).1 ∧
    d = (centeredSums (overlap x y)).2.1 * (centeredSums (overlap x y)).2.2 ∧
    d ≠ 0 := by
  unfold corrEntry at h
  by_cases he : (overlap x y).isEmpty
  · rw [if_pos he] at h; cases h
  · rw [if_neg he] at h
    by_cases hz : (centeredSums (overlap x y)).2.1 * (centeredSums (overlap x y)).2.2 = 0
    · rw [if_pos hz] at h; cases h
    · rw [if_neg hz] at h
      rw [Option.some.injEq, Prod.mk.injEq] at h
      exact ⟨he, h.1.symm, h.2.symm, h.2 ▸ hz⟩

theorem centeredSums_sq_nonneg_fst (ps : List (ℚ × ℚ)) :
    0 ≤ (centeredSums ps).2.1 := by
  unfold centeredSums
  exact sum_map_sq_nonneg (fun p => p.1 - meanL (ps.map Prod.fst)) ps

theorem centeredSums_sq_nonneg_snd (ps : List (ℚ × ℚ)) :
    0 ≤ (centeredSums ps).2.2 := by
  unfold centeredSums
  exact sum_map_sq_nonneg (fun p => p.2 - meanL (ps.map Prod.snd)) ps

theorem centeredSums_cs (ps : List (ℚ × ℚ)) :
    (centeredSums ps).1 ^ 2 ≤ (centeredSums ps).2.1 * (centeredSums ps).2.2 := by
  have hcs := list_cauchy_schwarz
    (ps.map (fun p => (p.1 - meanL (ps.map Prod.fst), p.2 - meanL (ps.map Prod.snd))))
  simp only [List.map_map, Function.comp] at hcs
  unfold centeredSums
  exact hcs

theorem corrEntry_bounds (x y : List (Option ℚ)) (n d : ℚ)
    (h : corrEntry x y = some (n, d)) : n ^ 2 ≤ d ∧ 0 < d := by
  obtain ⟨-, hn, hd, hdz⟩ := corrEntry_some x y n d h
  have hxx := centeredSums_sq_nonneg_fst (overlap x y)
  have hyy := centeredSums_sq_nonneg_snd (overlap x y)
  have hcs := centeredSums_cs (overlap x y)
  constructor
  · rw [hn, hd]; exact hcs
  · rcases lt_or_eq_of_le (mul_nonneg hxx hyy) with hpos | hzero
    · rw [hd]; exact hpos
    · exact absurd (hd.trans hzero.symm) hdz

theorem corrEntry_diag (x : List (Option ℚ)) (n d : ℚ)
    (h : corrEntry x x = some (n, d)) : 0 < n ∧ d = n * n := by
  obtain ⟨hne, hn, hd, hdz⟩ := corrEntry_some x x n d h
  have hpair : ∀ p ∈ overlap x x, p.1 = p.2 := by
    rw [overlap_self]
    intro p hp
    obtain ⟨a, -, rfl⟩ := List.mem_map.mp hp
    rfl
  have hmap : (overlap x x).map Prod.fst = (overlap x x).map Prod.snd :=
    List.map_congr_left hpair
  have h1 : (centeredSums (overlap x x)).1 = (centeredSums (overlap x x)).2.1 := by
    unfold centeredSums
    simp only [← hmap]
    exact sum_map_congr _ _ _ (fun p hp => by rw [← hpair p hp]; ring)
  have h2 : (centeredSums (overlap x x)).2.1 = (centeredSums (overlap x x)).2.2 := by
    unfold centeredSums
    simp only [← hmap]
    exact sum_map_congr _ _ _ (fun p hp => by rw [← hpair p hp])
  have hnd : d = n * n := by rw [hd, ← h1, ← h2, hn, ← h1]
  refine ⟨?_, hnd⟩
  have hnnn : n ≠ 0 := by
    intro h0
    rw [hnd, h0, mul_zero] at hdz
    exact hdz rfl
  have hnn : 0 ≤ n := by rw [hn, h1]; exact centeredSums_sq_nonneg_fst _
  exact lt_of_le_of_ne hnn (Ne.symm hnnn)

/-- C8: the claim promises 1.0 on the diagonal for every instrument with at
least 1 overlapping return with itself.  pandas Pearson returns NaN when the
variance product is zero, which happens for an instrument with exactly one
valid return (or constant returns): here instrument `A` has one overlapping
return with itself, a matrix is produced, and its diagonal entry for `A` is
NaN, not 1.0. -/
theorem c8_cex_single_return_diagonal_nan :
    plot_correlation
        [("A", Frame.mk [DVal.t 1, DVal.t 2] [100, 100] (some [none, some 0])),
         ("B", Frame.mk [DVal.t 1, DVal.t 2] [100, 200] (some [none, some 1]))] =
      .matrix ["A", "B"] [[none, none], [none, none]] ∧
    (overlap [none, some 0] [none, some (0 : ℚ)]).length = 1 ∧
    getE [[none, none], [none, none]] 0 0 = none := by
  refine ⟨?_, by decide, by decide⟩
  simp +decide [plot_correlation, buildCombined, addCols, lookupRet, corrMatrix,
    corrEntry, overlap, centeredSums, meanL, Frame.isEmpty, getE]

/-- C8 (amended): whenever `plot_correlation` produces a matrix, the matrix is
square over the instrument labels, symmetric (as exact entry data), every
defined (non-NaN) entry `(n, d)` — representing the float value
`n / sqrt d` — lies in `[-1, 1]`, and the diagonal value is exactly `1` for
every instrument whose self-overlapping returns have nonzero variance; a
zero-variance pair yields the undefined entry (NaN) rather than a division
by zero. -/
theorem c8_matrix_properties (coins : List (String × Frame))
    (labels : List String) (M : List (List (Option (ℚ × ℚ))))
    (h : plot_correlation coins = .matrix labels M) :
    M.length = labels.length ∧
    (∀ row ∈ M, row.length = labels.length) ∧
    (∀ i j, getE M i j = getE M j i) ∧
    (∀ i n d, getE M i i = some (n, d) → (n : ℝ) / Real.sqrt (d : ℝ) = 1) ∧
    (∀ i j n d, getE M i j = some (n, d) →
      |(n : ℝ) / Real.sqrt (d : ℝ)| ≤ 1) := by
  unfold plot_correlation at h
  by_cases hlen : coins.length < 2
  · rw [if_pos hlen] at h; cases h
  · rw [if_neg hlen] at h
    by_cases hemp : ((buildCombined coins).1.isEmpty || (buildCombined coins).2.isEmpty) = true
    · rw [if_pos hemp] at h; cases h
    · rw [if_neg hemp] at h
      rw [CorrResult.matrix.injEq] at h
      obtain ⟨hl, hM⟩ := h
      subst hl
      subst hM
      refine ⟨by simp [corrMatrix], ?_, ?_, ?_, ?_⟩
      · intro row hrow
        obtain ⟨xcol, -, rfl⟩ := List.mem_map.mp hrow
        simp [corrMatrix]
      · intro i j
        rw [getE_corrMatrix, getE_corrMatrix, corrEntry_comm]
      · intro i n d hdiag
        rw [getE_corrMatrix] at hdiag
        obtain ⟨hn, hd⟩ := corrEntry_diag _ n d hdiag
        subst hd
        have hnR : (0 : ℝ) < (n : ℝ) := by exact_mod_cast hn
        push_cast
        rw [Real.sqrt_mul_self hnR.le]
        exact div_self (ne_of_gt hnR)
      · intro i j n d hij
        rw [getE_corrMatrix] at hij
        obtain ⟨hcs, hdpos⟩ := corrEntry_bounds _ _ n d hij
        have hdR : (0 : ℝ) < (d : ℝ) := by exact_mod_cast hdpos
        have hsq : ((n : ℝ)) ^ 2 ≤ (d : ℝ) := by exact_mod_cast hcs
        have hsqr : 0 < Real.sqrt (d : ℝ) := Real.sqrt_pos.mpr hdR
        rw [abs_div, abs_of_nonneg (Real.sqrt_nonneg _), div_le_one hsqr]
        exact (Real.le_sqrt (abs_nonneg _) hdR.le).mpr (by rw [sq_abs]; exact hsq)

/-- Witness for `c8_matrix_properties` on two identical two-return columns
(every Pearson entry is `(2, 4)`, i.e. the float value `2 / sqrt 4 = 1`). -/
theorem c8_matrix_properties_witness :
    plot_correlation
        [("A", Frame.mk [DVal.t 1, DVal.t 2] [1, 3] (some [some 1, some 3])),
         ("B", Frame.mk [DVal.t 1, DVal.t 2] [1, 3] (some [some 1, some 3]))] =
      .matrix ["A", "B"]
        [[some (2, 4), some (2, 4)], [some (2, 4), some (2, 4)]] ∧
    (∀ i j, getE [[some ((2 : ℚ), (4 : ℚ)), some (2, 4)],
        [some (2, 4), some (2, 4)]] i j =
      getE [[some (2, 4), some (2, 4)], [some (2, 4), some (2, 4)]] j i) ∧
    (∀ i n d, getE [[some ((2 : ℚ), (4 : ℚ)), some (2, 4)],
        [some (2, 4), some (2, 4)]] i i = some (n, d) →
      (n : ℝ) / Real.sqrt (d : ℝ) = 1) := by
  have h : plot_correlation
      [("A", Frame.mk [DVal.t 1, DVal.t 2] [1, 3] (some [some 1, some 3])),
       ("B", Frame.mk [DVal.t 1, DVal.t 2] [1, 3] (some [some 1, some 3]))] =
      .matrix ["A", "B"]
        [[some (2, 4), some (2, 4)], [some (2, 4), some (2, 4)]] := by
    simp +decide [plot_correlation, buildCombined, addCols, lookupRet, corrMatrix,
      corrEntry, overlap, centeredSums, meanL, Frame.isEmpty]
    norm_num
  have hp := c8_matrix_properties _ _ _ h
  exact ⟨h, hp.2.2.1, hp.2.2.2.1⟩
